import Mathlib

/-!
Shallow embedding of the mapfre-access-management connector
(src/index.ts, src/isc-client.ts, src/model/entitlement.ts) and proofs
about its entitlement-hierarchy construction, proxy-state reconciliation,
access-request orchestration and account update/create operations.
-/

namespace MapfreAM

/-! ### Name parsing (src/model/entitlement.ts, parseName) -/

/-- Semantics of the JavaScript expression `s.split('-')` on the character
list of `s`: split at every hyphen, keeping empty pieces, so that the empty
string splits to one empty piece. -/
def splitChars (sep : Char) : List Char → List (List Char)
  | [] => [[]]
  | c :: cs =>
    let rest := splitChars sep cs
    if c = sep then [] :: rest
    else
      match rest with
      | [] => [[c]]
      | g :: gs => (c :: g) :: gs

/-- The TypeScript `name.split('-')`. -/
def jsSplitHyphen (s : String) : List String :=
  (splitChars '-' s.data).map (fun cs => String.mk cs)

/-- The TypeScript `name.split('-').filter(Boolean)`: for strings,
`Boolean(t)` is true exactly when `t` is non-empty. -/
def segments (s : String) : List String :=
  (jsSplitHyphen s).filter (fun t => t != "")

structure ParsedName where
  product : String
  environment : String
  role : String
deriving Repr, DecidableEq

/-- parseName from src/model/entitlement.ts: split on hyphen, drop falsy
(empty) segments, then pop role, environment, product from the end,
defaulting to the empty string. An undefined name yields no parts. -/
def parseName (name : Option String) : ParsedName :=
  let parts : List String :=
    match name with
    | some n => segments n
    | none => []
  let rev := parts.reverse
  { product := rev.getD 2 "", environment := rev.getD 1 "", role := rev.getD 0 "" }

/-! ### Entitlement records (src/model/entitlement.ts) -/

structure EntAttributes where
  id : String
  name : String
  description : String
  product : String
  environment : Option String
  role : String
  parent : Option String
  ids : List String
deriving Repr, DecidableEq

structure Entitlement where
  identity : String
  uuid : String
  type : String
  attributes : EntAttributes
deriving Repr, DecidableEq

/-- The Entitlement class constructor: a leaf record for one raw
entitlement document, carrying the parsed name parts and the singleton
list of the document id. -/
def Entitlement.ofDocument (docName : String) (docId : String) : Entitlement :=
  let p := parseName (some docName)
  { identity := docName
    uuid := docName
    type := "entitlement"
    attributes :=
      { id := docName
        name := docName
        description := "Proxy entitlement for " ++ p.environment ++ " environment"
        product := p.product
        environment := some p.environment
        role := p.role
        parent := some (p.product ++ "-" ++ p.role)
        ids := [docId] } }

/-- Entitlement.buildParent: a synthetic product node (role absent or empty,
which are both falsy in JavaScript) or role node (role present and
non-empty), created with an empty ids list. -/
def Entitlement.buildParent (product : String) (role : Option String) : Entitlement :=
  let roleStr := role.getD ""
  let name := if roleStr != "" then product ++ "-" ++ roleStr else product
  let description :=
    if roleStr != "" then "Proxy entitlement for " ++ roleStr ++ " role"
    else "Proxy entitlement for " ++ product ++ " product"
  { identity := name
    uuid := name
    type := "entitlement"
    attributes :=
      { id := name
        name := name
        description := description
        product := product
        environment := none
        role := roleStr
        parent := if roleStr != "" then some product else none
        ids := [] } }

/-! ### Hierarchy build pass (stdEntitlementList, src/index.ts lines 166-212) -/

structure EntitlementDocument where
  id : String
  name : String
  requestable : Bool
  sourceId : Option String
deriving Repr, DecidableEq

/-- Append one raw id to a node's ids list (the productIds.push / roleIds.push
mutation in the source, which aliases the array stored in the map). -/
def appendId (e : Entitlement) (id : String) : Entitlement :=
  { e with attributes := { e.attributes with ids := e.attributes.ids ++ [id] } }

/-- The upsert performed on the products / roles Maps: if the key is present
push the id onto the existing node's ids, otherwise insert a fresh node (at
the end, matching Map insertion order) and push the id onto it. -/
def upsertAppend (m : List (String × Entitlement)) (key : String) (fresh : Entitlement)
    (id : String) : List (String × Entitlement) :=
  match m with
  | [] => [(key, appendId fresh id)]
  | kv :: rest =>
    if kv.1 = key then (kv.1, appendId kv.2 id) :: rest
    else kv :: upsertAppend rest key fresh id

structure BuildState where
  products : List (String × Entitlement)
  roles : List (String × Entitlement)
  leafs : List Entitlement
  flipAttempts : List String
deriving Repr, DecidableEq

def initBuildState : BuildState := ⟨[], [], [], []⟩

/-- The node bookkeeping done for one document before the requestable flip:
parse the name, upsert the product node keyed by the product and the role
node keyed by product-role, appending the document id to both. -/
def nodeUpserts (st : BuildState) (e : EntitlementDocument) : BuildState :=
  let ent := Entitlement.ofDocument e.name e.id
  let productName := ent.attributes.product
  let roleId := productName ++ "-" ++ ent.attributes.role
  { st with
    products := upsertAppend st.products productName
      (Entitlement.buildParent productName none) e.id
    roles := upsertAppend st.roles roleId
      (Entitlement.buildParent productName (some ent.attributes.role)) e.id }

/-- One iteration of the build loop. `flipFails id = true` means the
patchEntitlement call marking that entitlement requestable throws; there is
no try/catch around it in the source, so the exception aborts the pass,
carrying the state accumulated so far. The flip is attempted only when the
document is not requestable; the leaf record is pushed after the flip. -/
def buildStep (flipFails : String → Bool) (st : BuildState) (e : EntitlementDocument) :
    Except BuildState BuildState :=
  let st1 := nodeUpserts st e
  if e.requestable then
    .ok { st1 with leafs := st1.leafs ++ [Entitlement.ofDocument e.name e.id] }
  else
    let st2 := { st1 with flipAttempts := st1.flipAttempts ++ [e.id] }
    if flipFails e.id then .error st2
    else .ok { st2 with leafs := st2.leafs ++ [Entitlement.ofDocument e.name e.id] }

def buildFrom (flipFails : String → Bool) (st : BuildState) :
    List EntitlementDocument → Except BuildState BuildState
  | [] => .ok st
  | e :: rest =>
    match buildStep flipFails st e with
    | .error s => .error s
    | .ok s => buildFrom flipFails s rest

/-- The whole hierarchy-build loop of stdEntitlementList over the search
results, starting from empty product and role maps. -/
def buildPass (flipFails : String → Bool) (es : List EntitlementDocument) :
    Except BuildState BuildState :=
  buildFrom flipFails initBuildState es

/-- Name and ids of each node in a map, in map order. -/
def nodeSummary (m : List (String × Entitlement)) : List (String × List String) :=
  m.map (fun kv => (kv.2.attributes.name, kv.2.attributes.ids))

/-- Some node of the map carries the given raw id in its ids list. -/
def idInNodes (m : List (String × Entitlement)) (id : String) : Prop :=
  ∃ kv ∈ m, id ∈ kv.2.attributes.ids

instance (m : List (String × Entitlement)) (id : String) : Decidable (idInNodes m id) := by
  unfold idInNodes; infer_instance

inductive ListEntError where
  | emptySearchDeref
  | flipAborted (partialState : BuildState)
deriving Repr, DecidableEq

structure ListEntOutput where
  originalSourceId : Option String
  emitted : List Entitlement
deriving Repr, DecidableEq

/-- stdEntitlementList: dereference the first search result to read the
original source id (a TypeError on an empty result, before anything is
emitted), run the build pass, then emit products, roles, and leaf records
in that order. -/
def stdEntitlementListRun (flipFails : String → Bool) (search : List EntitlementDocument) :
    Except ListEntError ListEntOutput :=
  match search with
  | [] => .error .emptySearchDeref
  | first :: _ =>
    match buildPass flipFails search with
    | .error st => .error (.flipAborted st)
    | .ok st =>
      .ok ⟨first.sourceId, st.products.map (fun kv => kv.2) ++ st.roles.map (fun kv => kv.2) ++ st.leafs⟩

/-! ### Proxy state reconciliation (stdAccountList, src/index.ts lines 115-161) -/

/-- One access item of an identity document, as projected by the search
includes list: id, name, value, type and owning source id. -/
structure AccessItem where
  id : String
  name : String
  value : String
  type : String
  sourceId : Option String
deriving Repr, DecidableEq

/-- One entitlement of the proxy source as returned by listEntitlements:
name, value, and the attributes.ids list of underlying raw ids. -/
structure ProxyEntitlement where
  name : String
  value : String
  ids : List String
deriving Repr, DecidableEq

/-- Lookup in the JavaScript Map built from (name, entitlement) pairs: with
duplicate names the last entry wins. -/
def entitlementMapGet (ents : List ProxyEntitlement) (n : String) : Option ProxyEntitlement :=
  ents.reverse.find? (fun e => e.name == n)

/-- JavaScript strict equality between an access-item object and a string,
as evaluated by currentSourceEntitlements.includes(x) on line 142 of
src/index.ts: an object reference never equals a primitive string, so the
comparison is always false. -/
def jsStrictEqItemStr (_item : AccessItem) (_s : String) : Bool := false

/-- Array.prototype.includes of currentSourceEntitlements (a list of
access-item objects) applied to an entitlement-id string. -/
def includesStr (items : List AccessItem) (s : String) : Bool :=
  items.any (fun i => jsStrictEqItemStr i s)

/-- Insertion into the JavaScript Set entitlementsAttribute: keep insertion
order, ignore duplicates. -/
def addToSet (l : List String) (s : String) : List String :=
  if l.contains s then l else l ++ [s]

/-- The two reconciliation passes of stdAccountList for one identity.
Pass 1 adds the names of directly held raw entitlements of the proxy
configuration. Pass 2 walks the identity's proxy-source grants and, for
each one found in the entitlement map and not already in the set, adds the
node's value when every underlying id passes the includes check. -/
def reconcile (proxyEnts : List ProxyEntitlement) (proxySourceId : String)
    (access : List AccessItem) : List String :=
  let sourceEntitlementIds := (proxyEnts.map (fun e => e.ids)).flatten
  let currentSource := access.filter
    (fun x => x.type == "ENTITLEMENT" && sourceEntitlementIds.contains x.id)
  let currentProxy := access.filter
    (fun x => x.type == "ENTITLEMENT" && x.sourceId == some proxySourceId)
  let pass1 := currentSource.foldl (fun s i => addToSet s i.name) []
  currentProxy.foldl
    (fun s i =>
      match entitlementMapGet proxyEnts i.name with
      | some obj =>
        if s.contains i.name then s
        else if obj.ids.all (fun x => includesStr currentSource x) then addToSet s obj.value
        else s
      | none => s)
    pass1

structure EmittedAccount where
  identity : String
  uuid : String
  id : String
  name : String
  entitlements : List String
deriving Repr, DecidableEq

/-- The per-identity emission of stdAccountList: send an account record
exactly when the reconciled set is non-empty (lines 148-161). -/
def accountForIdentity (proxyEnts : List ProxyEntitlement) (proxySourceId : String)
    (identityName : String) (access : List AccessItem) : Option EmittedAccount :=
  let held := reconcile proxyEnts proxySourceId access
  if 0 < held.length then
    some ⟨identityName, identityName, identityName, identityName, held⟩
  else none

/-! ### Access request orchestration (src/index.ts lines 66-101, 299-327) -/

/-- getEntitlementbySource in isc-client.ts: filter the proxy source's
entitlements by value and take the first match, if any. -/
def getEntitlementBySource (store : List ProxyEntitlement) (value : String) :
    Option ProxyEntitlement :=
  store.find? (fun e => e.value == value)

/-- getSourceEntitlements: for each requested value, look it up on the proxy
source; unresolvable values contribute nothing; collect the union of the
resolved attributes.ids deduplicated in insertion order. -/
def getSourceEntitlements (store : List ProxyEntitlement) (values : List String) :
    List String :=
  values.foldl
    (fun acc v =>
      match getEntitlementBySource store v with
      | some e => e.ids.foldl addToSet acc
      | none => acc)
    []

inductive ReqType where
  | grant
  | revoke
deriving Repr, DecidableEq

structure AccessRequest where
  identity : String
  ids : List String
  requestType : ReqType
deriving Repr, DecidableEq

/-- The single access request created by one createAccessRequest call: the
requested values are resolved through getSourceEntitlements and the result
is submitted for the identity. -/
def createAccessRequestContent (store : List ProxyEntitlement) (identity : String)
    (entitlements : List String) (rt : ReqType) : AccessRequest :=
  ⟨identity, getSourceEntitlements store entitlements, rt⟩

/-- The access request submitted by stdAccountCreate: it first resolves the
proxy names itself (line 310), then hands the resolved ids to
createAccessRequest (line 313), which resolves them again. -/
def stdAccountCreateRequest (store : List ProxyEntitlement) (identityId : String)
    (proxyNames : List String) : AccessRequest :=
  let sourceEntitlements := getSourceEntitlements store proxyNames
  createAccessRequestContent store identityId sourceEntitlements .grant

instance {ε α : Type} [DecidableEq ε] [DecidableEq α] : DecidableEq (Except ε α)
  | .error x, .error y =>
    if h : x = y then isTrue (congrArg Except.error h)
    else isFalse (fun hc => h (Except.error.inj hc))
  | .error _, .ok _ => isFalse Except.noConfusion
  | .ok _, .error _ => isFalse Except.noConfusion
  | .ok x, .ok y =>
    if h : x = y then isTrue (congrArg Except.ok h)
    else isFalse (fun hc => h (Except.ok.inj hc))

/-- Outcome of one createAccessRequest call: result, how many submission
attempts were made, and the fixed delays slept between them. -/
structure RequestRun where
  result : Except String String
  attempts : Nat
  delaysMs : List Nat
deriving Repr, DecidableEq

/-- The retry protocol of createAccessRequest (lines 72-79): submit; on any
failure sleep 60000 ms once and submit a second time, returning whatever
the second attempt produced. `submit n` is the outcome of attempt `n`. -/
def createAccessRequestRun (submit : Nat → Except String String) : RequestRun :=
  match submit 0 with
  | .ok r => ⟨.ok r, 1, []⟩
  | .error _ =>
    match submit 1 with
    | .ok r => ⟨.ok r, 2, [60000]⟩
    | .error e => ⟨.error e, 2, [60000]⟩

/-! ### Account update (stdAccountUpdate, src/index.ts lines 329-379) -/

inductive ChangeOp where
  | add
  | remove
  | set
deriving Repr, DecidableEq

structure Change where
  op : ChangeOp
  values : List String
deriving Repr, DecidableEq

/-- Anything other than Add requests a revoke (line 348-349). -/
def opToType : ChangeOp → ReqType
  | .add => .grant
  | _ => .revoke

inductive NetEvent where
  | accountLookup (name : String)
  | entitlementLookup (value : String)
  | submitAttempt (req : AccessRequest)
deriving Repr, DecidableEq

inductive UpdateError where
  | accountNotFound
  | validation
  | submission
deriving Repr, DecidableEq

structure LoopResult where
  events : List NetEvent
  counter : Nat
  outcome : Except UpdateError (List String × List String)
deriving Repr, DecidableEq

/-- The change loop of stdAccountUpdate. Each change is first checked not to
be a Set (assert on line 344), then its values are resolved on the proxy
source (one remote lookup per value inside getSourceEntitlements) and one
access request is submitted with a single retry; `ok k` tells whether the
k-th submission attempt of the whole invocation succeeds. Added and removed
values accumulate only after a successful request. -/
def processChanges (store : List ProxyEntitlement) (ok : Nat → Bool) (identityId : String) :
    List Change → Nat → List String → List String → LoopResult
  | [], k, adds, removes => ⟨[], k, .ok (adds, removes)⟩
  | c :: rest, k, adds, removes =>
    if c.op = ChangeOp.set then ⟨[], k, .error .validation⟩
    else
      let lookups := c.values.map NetEvent.entitlementLookup
      let req : AccessRequest := ⟨identityId, getSourceEntitlements store c.values, opToType c.op⟩
      let adds2 := if c.op = ChangeOp.add then adds ++ c.values else adds
      let removes2 := if c.op = ChangeOp.add then removes else removes ++ c.values
      if ok k then
        let r1 := processChanges store ok identityId rest (k + 1) adds2 removes2
        ⟨lookups ++ NetEvent.submitAttempt req :: r1.events, r1.counter, r1.outcome⟩
      else if ok (k + 1) then
        let r1 := processChanges store ok identityId rest (k + 2) adds2 removes2
        ⟨lookups ++ NetEvent.submitAttempt req :: NetEvent.submitAttempt req :: r1.events,
          r1.counter, r1.outcome⟩
      else
        ⟨lookups ++ [NetEvent.submitAttempt req, NetEvent.submitAttempt req], k + 2,
          .error .submission⟩

structure AccountRecord where
  identityId : String
  entitlements : List String
deriving Repr, DecidableEq

structure UpdateRun where
  events : List NetEvent
  emitted : Option EmittedAccount
  result : Except UpdateError Unit
deriving Repr, DecidableEq

/-- Array.from(new Set(l)): deduplicate keeping first occurrences. -/
def dedupe (l : List String) : List String := l.foldl addToSet []

/-- stdAccountUpdate: look the account up by source (a network call made
before any change is validated), fail if absent, run the change loop, and
on success emit the account whose entitlements are the deduplicated
existing-plus-added list minus the removed values. On any loop failure
nothing is emitted. -/
def updateRun (store : List ProxyEntitlement) (ok : Nat → Bool) (name : String)
    (existing : Option AccountRecord) (changes : List Change) : UpdateRun :=
  match existing with
  | none => ⟨[NetEvent.accountLookup name], none, .error .accountNotFound⟩
  | some acct =>
    let loop := processChanges store ok acct.identityId changes 0 [] []
    match loop.outcome with
    | .error e => ⟨NetEvent.accountLookup name :: loop.events, none, .error e⟩
    | .ok (adds, removes) =>
      let ents := dedupe ((acct.entitlements ++ adds).filter (fun x => !removes.contains x))
      ⟨NetEvent.accountLookup name :: loop.events, some ⟨name, name, name, name, ents⟩, .ok ()⟩

def isSubmit : NetEvent → Bool
  | .submitAttempt _ => true
  | _ => false

def countSubmits (evs : List NetEvent) : Nat := evs.countP isSubmit

/-- The submission oracle making exactly the first n attempts succeed. -/
def firstNOk (n : Nat) : Nat → Bool := fun k => decide (k < n)

/-- The state a build pass carries when it aborts, if it aborts. -/
def abortState : Except BuildState BuildState → Option BuildState
  | .error st => some st
  | .ok _ => none

/-! ### Helper lemmas -/

theorem parse_of_three_segments (nm p env r : String)
    (h : jsSplitHyphen nm = [p, env, r]) (hp : p ≠ "") (he : env ≠ "") (hr : r ≠ "") :
    parseName (some nm) = ⟨p, env, r⟩ := by
  have hp' : (p != "") = true := by simpa [bne_iff_ne] using hp
  have he' : (env != "") = true := by simpa [bne_iff_ne] using he
  have hr' : (r != "") = true := by simpa [bne_iff_ne] using hr
  simp [parseName, segments, h, List.filter, hp', he', hr', List.getD]

theorem buildFrom_ok_append (f : String → Bool) (pre rest : List EntitlementDocument) :
    ∀ st st' : BuildState, buildFrom f st pre = .ok st' →
      buildFrom f st (pre ++ rest) = buildFrom f st' rest := by
  induction pre with
  | nil =>
    intro st st' h
    simp only [buildFrom] at h
    cases h
    simp
  | cons e pre ih =>
    intro st st' h
    simp only [buildFrom, List.cons_append] at h ⊢
    cases hstep : buildStep f st e with
    | error s => rw [hstep] at h; exact Except.noConfusion h
    | ok s => rw [hstep] at h; exact ih s st' h

theorem idInNodes_upsertAppend (key id : String) (fresh : Entitlement) :
    ∀ m : List (String × Entitlement), idInNodes (upsertAppend m key fresh id) id := by
  intro m
  induction m with
  | nil =>
    refine ⟨(key, appendId fresh id), by simp [upsertAppend], ?_⟩
    simp [appendId]
  | cons kv rest ih =>
    by_cases hk : kv.1 = key
    · refine ⟨(kv.1, appendId kv.2 id), by simp [upsertAppend, hk], ?_⟩
      simp [appendId]
    · obtain ⟨kv2, hmem, hid⟩ := ih
      exact ⟨kv2, by simp [upsertAppend, hk, hmem], hid⟩

theorem buildFrom_all_requestable (f : String → Bool) (es : List EntitlementDocument) :
    ∀ st st' : BuildState, (∀ x ∈ es, x.requestable = true) →
      buildFrom f st es = .ok st' → st'.flipAttempts = st.flipAttempts := by
  induction es with
  | nil =>
    intro st st' _ h
    simp only [buildFrom] at h
    cases h
    rfl
  | cons e es ih =>
    intro st st' hreq h
    have hr : e.requestable = true := hreq e (by simp)
    simp only [buildFrom, buildStep, hr, if_true] at h
    exact (ih _ _ (fun x hx => hreq x (by simp [hx])) h).trans rfl

/-! ### Claim theorems -/

/-- C1: the proxy-state reconciliation claim fails on the code. A subject
directly holds both underlying raw entitlements a and b of node X (their
names rawA and rawB enter the held set in pass 1) and holds a proxy grant
named X sourced from the proxy source, yet pass 2 does not add X: line 142
of src/index.ts asks whether each underlying id string is an element of the
list of access-item objects, and strict equality between an object and a
string is always false, so a node with non-empty underlyingIds is never
added. The spec requires the reconciled held set to contain X here. -/
theorem c1_pass2_never_adds_satisfied_node :
    reconcile [⟨"X", "X", ["a", "b"]⟩] "proxySrc"
        [⟨"a", "rawA", "rawA", "ENTITLEMENT", some "origSrc"⟩,
         ⟨"b", "rawB", "rawB", "ENTITLEMENT", some "origSrc"⟩,
         ⟨"pX", "X", "X", "ENTITLEMENT", some "proxySrc"⟩]
      = ["rawA", "rawB"] ∧
    "X" ∉ reconcile [⟨"X", "X", ["a", "b"]⟩] "proxySrc"
        [⟨"a", "rawA", "rawA", "ENTITLEMENT", some "origSrc"⟩,
         ⟨"b", "rawB", "rawB", "ENTITLEMENT", some "origSrc"⟩,
         ⟨"pX", "X", "X", "ENTITLEMENT", some "proxySrc"⟩] := by
  decide

/-- C2: building the hierarchy from exactly one entitlement named P-E-R
with non-empty hyphen-free segments yields a product node named P and a
role node named P-R, each with underlyingIds equal to the singleton list of
the entitlement's id; parsing takes the trailing segments as role,
environment and product, and names with fewer than three segments yield
empty strings for the missing parts. -/
theorem c2_singleton_hierarchy (nm p env r id n2 n3 n4 : String)
    (h : jsSplitHyphen nm = [p, env, r]) (hp : p ≠ "") (he : env ≠ "") (hr : r ≠ "")
    (h2 : (segments n2).length = 2) (h3 : (segments n3).length = 1)
    (h4 : segments n4 = []) :
    (buildPass (fun _ => false) [⟨id, nm, true, some "orig"⟩]).toOption.map
        (fun st => (nodeSummary st.products, nodeSummary st.roles))
      = some ([(p, [id])], [(p ++ "-" ++ r, [id])]) ∧
    parseName (some nm) = ⟨p, env, r⟩ ∧
    (parseName (some n2)).product = "" ∧
    (parseName (some n3)).product = "" ∧ (parseName (some n3)).environment = "" ∧
    parseName (some n4) = ⟨"", "", ""⟩ := by
  have hparse := parse_of_three_segments nm p env r h hp he hr
  have hr' : (r != "") = true := by simpa [bne_iff_ne] using hr
  refine ⟨?_, hparse, ?_, ?_, ?_, ?_⟩
  · simp [buildPass, buildFrom, buildStep, nodeUpserts, Entitlement.ofDocument, hparse,
      upsertAppend, appendId, Entitlement.buildParent, nodeSummary, hr']
    exact ⟨_, rfl, by simp, by simp⟩
  · have hn : (segments n2).reverse[2]? = none := List.getElem?_eq_none (by simp [h2])
    simp [parseName, hn]
  · have hn : (segments n3).reverse[2]? = none := List.getElem?_eq_none (by simp [h3])
    simp [parseName, hn]
  · have hn : (segments n3).reverse[1]? = none := List.getElem?_eq_none (by simp [h3])
    simp [parseName, hn]
  · simp [parseName, h4]

/-- C2 witness at the concrete entitlement finance-prod-approver with id e1. -/
theorem c2_singleton_hierarchy_witness :
    (buildPass (fun _ => false)
        [⟨"e1", "finance-prod-approver", true, some "orig"⟩]).toOption.map
        (fun st => (nodeSummary st.products, nodeSummary st.roles))
      = some ([("finance", ["e1"])], [("finance" ++ "-" ++ "approver", ["e1"])]) ∧
    parseName (some "finance-prod-approver") = ⟨"finance", "prod", "approver"⟩ ∧
    (parseName (some "a-b")).product = "" ∧
    (parseName (some "x")).product = "" ∧ (parseName (some "x")).environment = "" ∧
    parseName (some "") = ⟨"", "", ""⟩ :=
  c2_singleton_hierarchy "finance-prod-approver" "finance" "prod" "approver" "e1"
    "a-b" "x" "" (by decide) (by decide) (by decide) (by decide) (by decide) (by decide)
    (by decide)

/-- C3: the access-request claim fails on the code for the create-account
scenario. The proxy name finance-approver resolves to the single underlying
id realEntId123, but stdAccountCreate resolves the names itself and then
hands the resolved ids to createAccessRequest, which resolves them a second
time as proxy values; realEntId123 is not a proxy value, so the one
submitted AccessRequest carries the empty id set instead of realEntId123. -/
theorem c3_create_account_double_resolution :
    getSourceEntitlements [⟨"finance-approver", "finance-approver", ["realEntId123"]⟩]
        ["finance-approver"] = ["realEntId123"] ∧
    stdAccountCreateRequest [⟨"finance-approver", "finance-approver", ["realEntId123"]⟩]
        "id1" ["finance-approver"]
      = ⟨"id1", [], .grant⟩ := by
  decide

/-- C4: if the first submission fails, the orchestrator sleeps the fixed
60-second delay exactly once, retries exactly once, and returns the second
attempt's result (so a second failure propagates); no run ever makes more
than two attempts. -/
theorem c4_retry_exactly_once (submit other : Nat → Except String String) (msg : String)
    (h : submit 0 = .error msg) :
    (createAccessRequestRun submit).result = submit 1 ∧
    (createAccessRequestRun submit).delaysMs = [60000] ∧
    (createAccessRequestRun submit).attempts = 2 ∧
    (createAccessRequestRun other).attempts ≤ 2 := by
  refine ⟨?_, ?_, ?_, ?_⟩ <;>
    first
      | (simp only [createAccessRequestRun, h]
         cases h1 : submit 1 <;> simp [h1])
      | (cases h2 : other 0 <;> cases h3 : other 1 <;>
         simp [createAccessRequestRun, h2, h3])

/-- C4 witness: a run whose first attempt fails and whose second succeeds. -/
theorem c4_retry_exactly_once_witness :
    (createAccessRequestRun
        (fun n => if n == 0 then .error "boom" else .ok "second")).result
      = (fun n => if n == 0 then (.error "boom" : Except String String)
          else .ok "second") 1 ∧
    (createAccessRequestRun
        (fun n => if n == 0 then .error "boom" else .ok "second")).delaysMs = [60000] ∧
    (createAccessRequestRun
        (fun n => if n == 0 then .error "boom" else .ok "second")).attempts = 2 ∧
    (createAccessRequestRun
        (fun _ => (.ok "r" : Except String String))).attempts ≤ 2 :=
  c4_retry_exactly_once (fun n => if n == 0 then .error "boom" else .ok "second")
    (fun _ => .ok "r") "boom" rfl

/-- C7: stdAccountList emits an account record for a subject exactly when
the reconciled held set is non-empty. -/
theorem c7_account_iff_nonempty_held (proxyEnts : List ProxyEntitlement)
    (sid nm : String) (access : List AccessItem) :
    (accountForIdentity proxyEnts sid nm access).isSome = true ↔
      reconcile proxyEnts sid access ≠ [] := by
  unfold accountForIdentity
  cases h : reconcile proxyEnts sid access <;> simp [h]

/-- C8: when the configured entitlement search returns no documents,
list-entitlements fails immediately on the dereference of the first result,
emitting nothing, instead of completing successfully with zero records. -/
theorem c8_empty_search_fails (flipFails : String → Bool) :
    stdEntitlementListRun flipFails [] = .error .emptySearchDeref := rfl

/-- C9: parseName depends only on the non-empty hyphen-delimited segments
of the name, so consecutive, leading or trailing hyphens collapse; a--b
parses like a-b, x- yields role x with empty environment and product, and
an absent name yields all-empty parts. -/
theorem c9_parse_drops_empty_segments (n1 n2 : String)
    (h : segments n1 = segments n2) :
    parseName (some n1) = parseName (some n2) ∧
    parseName (some "a--b") = parseName (some "a-b") ∧
    parseName (some "x-") = ⟨"", "", "x"⟩ ∧
    parseName none = ⟨"", "", ""⟩ := by
  exact ⟨by simp [parseName, h], by decide, by decide, by decide⟩

/-- C9 witness at the concrete pair p--q and p-q. -/
theorem c9_parse_drops_empty_segments_witness :
    parseName (some "p--q") = parseName (some "p-q") ∧
    parseName (some "a--b") = parseName (some "a-b") ∧
    parseName (some "x-") = ⟨"", "", "x"⟩ ∧
    parseName none = ⟨"", "", ""⟩ :=
  c9_parse_drops_empty_segments "p--q" "p-q" (by decide)

/-- C5 fails as stated: an update-account invocation whose only change has
op Set does reject the change, but the remote account lookup has already
been made when the rejection happens, so the Set rejection does not precede
every network call of the invocation. -/
theorem c5_counterexample :
    updateRun [] (fun _ => true) "u" (some ⟨"uid", ["old"]⟩) [⟨ChangeOp.set, ["v"]⟩]
      = ⟨[NetEvent.accountLookup "u"], none, .error .validation⟩ ∧
    ([NetEvent.accountLookup "u"] : List NetEvent) ≠ [] := by
  decide

theorem processChanges_abort_on_set (store : List ProxyEntitlement) (idy : String)
    (vs : List String) (post : List Change) (pre : List Change) :
    ∀ (k : Nat) (adds removes : List String),
      (∀ c ∈ pre, c.op ≠ ChangeOp.set) →
      processChanges store (fun _ => true) idy
          (pre ++ ⟨ChangeOp.set, vs⟩ :: post) k adds removes
        = ⟨(processChanges store (fun _ => true) idy pre k adds removes).events,
           (processChanges store (fun _ => true) idy pre k adds removes).counter,
           .error .validation⟩ := by
  induction pre with
  | nil => intro k adds removes _; simp [processChanges]
  | cons c pre ih =>
    intro k adds removes hpre
    have hc : c.op ≠ ChangeOp.set := hpre c (by simp)
    have hrec := ih (k + 1)
      (if c.op = ChangeOp.add then adds ++ c.values else adds)
      (if c.op = ChangeOp.add then removes else removes ++ c.values)
      (fun x hx => hpre x (by simp [hx]))
    simp [processChanges, hc, hrec]

/-- C5 amended: an update-account invocation containing a Set change fails
validation when the Set change is reached; the remote account lookup and
the processing of earlier changes precede the rejection, and no network
call is made for the Set change or any later change (with all earlier
submissions succeeding, the failing run's events are exactly those of the
run on the earlier changes alone, and nothing is emitted). -/
theorem c5_set_rejected_when_reached (store : List ProxyEntitlement) (nm : String)
    (acct : AccountRecord) (pre post : List Change) (vs : List String)
    (hpre : ∀ c ∈ pre, c.op ≠ ChangeOp.set) :
    updateRun store (fun _ => true) nm (some acct)
        (pre ++ ⟨ChangeOp.set, vs⟩ :: post)
      = ⟨(updateRun store (fun _ => true) nm (some acct) pre).events, none,
         .error .validation⟩ := by
  have h := processChanges_abort_on_set store acct.identityId vs post pre 0 [] [] hpre
  simp only [updateRun, h]
  cases houtcome : (processChanges store (fun _ => true) acct.identityId pre 0 [] []).outcome with
  | error e => simp [houtcome]
  | ok ar => cases ar with | mk adds removes => simp [houtcome]

/-- C5 amended witness: one successful Add change followed by a Set change. -/
theorem c5_set_rejected_when_reached_witness :
    updateRun [⟨"p1", "p1", ["r1"]⟩] (fun _ => true) "u" (some ⟨"uid", ["old"]⟩)
        ([⟨ChangeOp.add, ["p1"]⟩] ++ ⟨ChangeOp.set, ["v"]⟩ :: [])
      = ⟨(updateRun [⟨"p1", "p1", ["r1"]⟩] (fun _ => true) "u" (some ⟨"uid", ["old"]⟩)
            [⟨ChangeOp.add, ["p1"]⟩]).events, none, .error .validation⟩ :=
  c5_set_rejected_when_reached [⟨"p1", "p1", ["r1"]⟩] "u" ⟨"uid", ["old"]⟩
    [⟨ChangeOp.add, ["p1"]⟩] [] ["v"] (by simp)

/-- C6 fails as stated: two non-requestable entitlements are processed and
the flip of the first one fails; the pass aborts with the first
entitlement's id in its product and role nodes but with no leaf emitted and
the second entitlement never processed, instead of continuing. -/
theorem c6_counterexample :
    (abortState (buildPass (fun i => i == "id1")
        [⟨"id1", "p-env-r1", false, some "o"⟩,
         ⟨"id2", "p-env-r2", false, some "o"⟩])).map
        (fun st => (nodeSummary st.products, nodeSummary st.roles,
          st.leafs.length, st.flipAttempts))
      = some ([("p", ["id1"])], [("p-r1", ["id1"])], 0, ["id1"]) := by
  decide

/-- C6 amended: a failure of the requestable-flip for entitlement E aborts
the pass (entitlements after E are not processed and E's leaf record is not
kept), although E's id has already been added to its product and role
nodes; the flip is attempted only for non-requestable entitlements, so a
pass over only requestable entitlements attempts no flip at all. -/
theorem c6_flip_failure_aborts_pass (flipFails flip2 : String → Bool)
    (pre post es2 : List EntitlementDocument) (e : EntitlementDocument)
    (stPre st2 : BuildState)
    (hpre : buildPass flipFails pre = .ok stPre)
    (he : e.requestable = false) (hf : flipFails e.id = true)
    (h2 : buildPass flip2 es2 = .ok st2)
    (hreq : ∀ x ∈ es2, x.requestable = true) :
    buildPass flipFails (pre ++ e :: post)
      = .error { nodeUpserts stPre e with
          flipAttempts := stPre.flipAttempts ++ [e.id] } ∧
    idInNodes (nodeUpserts stPre e).products e.id ∧
    idInNodes (nodeUpserts stPre e).roles e.id ∧
    (nodeUpserts stPre e).leafs = stPre.leafs ∧
    st2.flipAttempts = [] := by
  refine ⟨?_, ?_, ?_, rfl, ?_⟩
  · have h1 := buildFrom_ok_append flipFails pre (e :: post) initBuildState stPre hpre
    unfold buildPass at h1 ⊢
    rw [h1]
    simp only [buildFrom, buildStep, he, hf, Bool.false_eq_true, if_false, if_true]
    rfl
  · simp only [nodeUpserts]
    exact idInNodes_upsertAppend _ _ _ _
  · simp only [nodeUpserts]
    exact idInNodes_upsertAppend _ _ _ _
  · exact buildFrom_all_requestable flip2 es2 initBuildState st2 hreq h2

theorem countSubmits_lookups (vs : List String) :
    countSubmits (vs.map NetEvent.entitlementLookup) = 0 := by
  simp only [countSubmits, List.countP_map]
  simp [List.countP_eq_zero, isSubmit, Function.comp]

theorem countSubmits_append (a b : List NetEvent) :
    countSubmits (a ++ b) = countSubmits a + countSubmits b :=
  List.countP_append _ _ _

theorem countSubmits_submit_cons (r : AccessRequest) (l : List NetEvent) :
    countSubmits (NetEvent.submitAttempt r :: l) = countSubmits l + 1 := by
  simp [countSubmits, List.countP_cons, isSubmit]

theorem processChanges_fail_after (store : List ProxyEntitlement) (idy : String)
    (c : Change) (post : List Change) (ok : Nat → Bool)
    (hc : c.op ≠ ChangeOp.set) (pre : List Change) :
    ∀ (k : Nat) (adds removes : List String),
      (∀ x ∈ pre, x.op ≠ ChangeOp.set) →
      (∀ j, k ≤ j → j < k + pre.length → ok j = true) →
      ok (k + pre.length) = false → ok (k + pre.length + 1) = false →
      processChanges store ok idy (pre ++ c :: post) k adds removes
        = ⟨(processChanges store ok idy pre k adds removes).events
            ++ c.values.map NetEvent.entitlementLookup
            ++ [NetEvent.submitAttempt
                  ⟨idy, getSourceEntitlements store c.values, opToType c.op⟩,
                NetEvent.submitAttempt
                  ⟨idy, getSourceEntitlements store c.values, opToType c.op⟩],
           k + pre.length + 2, .error .submission⟩
      ∧ countSubmits (processChanges store ok idy pre k adds removes).events
          = pre.length := by
  induction pre with
  | nil =>
    intro k adds removes _ _ hk0 hk1
    simp only [List.length_nil, Nat.add_zero] at hk0 hk1
    constructor
    · simp [processChanges, hc, hk0, hk1]
    · simp [processChanges, countSubmits]
  | cons x pre ih =>
    intro k adds removes hpre hok hk0 hk1
    have hx : x.op ≠ ChangeOp.set := hpre x (by simp)
    have hokk : ok k = true :=
      hok k (Nat.le_refl k) (by simp only [List.length_cons]; omega)
    have hlen : k + (x :: pre).length = k + 1 + pre.length := by
      simp only [List.length_cons]; omega
    have ihk := ih (k + 1)
      (if x.op = ChangeOp.add then adds ++ x.values else adds)
      (if x.op = ChangeOp.add then removes else removes ++ x.values)
      (fun y hy => hpre y (by simp [hy]))
      (fun j hj1 hj2 => hok j (by omega) (by simp only [List.length_cons]; omega))
      (by rw [hlen] at hk0; exact hk0)
      (by rw [hlen] at hk1; exact hk1)
    obtain ⟨ih1, ih2⟩ := ihk
    constructor
    · simp only [List.cons_append, processChanges, if_neg hx, hokk, if_true,
        List.append_eq]
      rw [ih1, hlen]
      simp
    · simp only [processChanges, if_neg hx, hokk, if_true, List.length_cons,
        List.append_eq]
      rw [countSubmits_append, countSubmits_lookups, countSubmits_submit_cons, ih2]
      omega

/-- C10: update-account is not atomic across its change list. Under the
submission oracle that lets exactly the first pre.length attempts succeed,
each earlier change has exactly one access request submitted; the later
change c fails its attempt and its single retry, the whole invocation ends
in a submission error, no account record is emitted, and the event trace is
exactly the earlier changes' trace followed by c's lookups and its two
failed submission attempts. -/
theorem c10_update_not_atomic (store : List ProxyEntitlement) (nm : String)
    (acct : AccountRecord) (pre post : List Change) (c : Change)
    (hpre : ∀ x ∈ pre, x.op ≠ ChangeOp.set) (hc : c.op ≠ ChangeOp.set) :
    (updateRun store (firstNOk pre.length) nm (some acct) (pre ++ c :: post)).result
        = .error .submission ∧
    (updateRun store (firstNOk pre.length) nm (some acct) (pre ++ c :: post)).emitted
        = none ∧
    (updateRun store (firstNOk pre.length) nm (some acct) (pre ++ c :: post)).events
      = (updateRun store (firstNOk pre.length) nm (some acct) pre).events
        ++ c.values.map NetEvent.entitlementLookup
        ++ [NetEvent.submitAttempt
              ⟨acct.identityId, getSourceEntitlements store c.values, opToType c.op⟩,
            NetEvent.submitAttempt
              ⟨acct.identityId, getSourceEntitlements store c.values, opToType c.op⟩] ∧
    countSubmits (updateRun store (firstNOk pre.length) nm (some acct) pre).events
      = pre.length := by
  have hmain := processChanges_fail_after store acct.identityId c post
    (firstNOk pre.length) hc pre 0 [] []
    hpre
    (fun j hj1 hj2 => by simp [firstNOk]; omega)
    (by simp [firstNOk])
    (by simp [firstNOk])
  obtain ⟨h1, h2⟩ := hmain
  rw [Nat.zero_add] at h1
  refine ⟨?_, ?_, ?_, ?_⟩
  · simp [updateRun, h1]
  · simp [updateRun, h1]
  · simp only [updateRun, h1]
    cases houtcome : (processChanges store (firstNOk pre.length) acct.identityId
        pre 0 [] []).outcome with
    | error e => simp [houtcome]
    | ok ar => cases ar with | mk adds removes => simp [houtcome]
  · simp only [updateRun]
    cases houtcome : (processChanges store (firstNOk pre.length) acct.identityId
        pre 0 [] []).outcome with
    | error e => simpa [houtcome, countSubmits, List.countP_cons, isSubmit] using h2
    | ok ar =>
      cases ar with
      | mk adds removes => simpa [houtcome, countSubmits, List.countP_cons, isSubmit] using h2

/-- C10 witness: one successful Add change, then a Remove change whose two
submission attempts both fail. -/
theorem c10_update_not_atomic_witness :
    (updateRun [⟨"p1", "p1", ["r1"]⟩, ⟨"p2", "p2", ["r2"]⟩]
        (firstNOk [(⟨ChangeOp.add, ["p1"]⟩ : Change)].length) "u" (some ⟨"uid", ["p0"]⟩)
        ([⟨ChangeOp.add, ["p1"]⟩] ++ ⟨ChangeOp.remove, ["p2"]⟩ :: [])).result
        = .error .submission ∧
    (updateRun [⟨"p1", "p1", ["r1"]⟩, ⟨"p2", "p2", ["r2"]⟩]
        (firstNOk [(⟨ChangeOp.add, ["p1"]⟩ : Change)].length) "u" (some ⟨"uid", ["p0"]⟩)
        ([⟨ChangeOp.add, ["p1"]⟩] ++ ⟨ChangeOp.remove, ["p2"]⟩ :: [])).emitted
        = none ∧
    (updateRun [⟨"p1", "p1", ["r1"]⟩, ⟨"p2", "p2", ["r2"]⟩]
        (firstNOk [(⟨ChangeOp.add, ["p1"]⟩ : Change)].length) "u" (some ⟨"uid", ["p0"]⟩)
        ([⟨ChangeOp.add, ["p1"]⟩] ++ ⟨ChangeOp.remove, ["p2"]⟩ :: [])).events
      = (updateRun [⟨"p1", "p1", ["r1"]⟩, ⟨"p2", "p2", ["r2"]⟩]
          (firstNOk [(⟨ChangeOp.add, ["p1"]⟩ : Change)].length) "u" (some ⟨"uid", ["p0"]⟩)
          [⟨ChangeOp.add, ["p1"]⟩]).events
        ++ (["p2"] : List String).map NetEvent.entitlementLookup
        ++ [NetEvent.submitAttempt
              ⟨"uid", getSourceEntitlements [⟨"p1", "p1", ["r1"]⟩, ⟨"p2", "p2", ["r2"]⟩]
                ["p2"], opToType ChangeOp.remove⟩,
            NetEvent.submitAttempt
              ⟨"uid", getSourceEntitlements [⟨"p1", "p1", ["r1"]⟩, ⟨"p2", "p2", ["r2"]⟩]
                ["p2"], opToType ChangeOp.remove⟩] ∧
    countSubmits (updateRun [⟨"p1", "p1", ["r1"]⟩, ⟨"p2", "p2", ["r2"]⟩]
        (firstNOk [(⟨ChangeOp.add, ["p1"]⟩ : Change)].length) "u" (some ⟨"uid", ["p0"]⟩)
        [⟨ChangeOp.add, ["p1"]⟩]).events
      = [(⟨ChangeOp.add, ["p1"]⟩ : Change)].length :=
  c10_update_not_atomic [⟨"p1", "p1", ["r1"]⟩, ⟨"p2", "p2", ["r2"]⟩] "u" ⟨"uid", ["p0"]⟩
    [⟨ChangeOp.add, ["p1"]⟩] [] ⟨ChangeOp.remove, ["p2"]⟩ (by simp) (by simp)

/-- C6 amended witness: one non-requestable entitlement whose flip fails,
with empty surrounding lists, against the empty all-requestable pass. -/
theorem c6_flip_failure_aborts_pass_witness :
    buildPass (fun i => i == "id1")
        ([] ++ ⟨"id1", "p-env-r1", false, some "o"⟩ :: [])
      = .error { nodeUpserts initBuildState ⟨"id1", "p-env-r1", false, some "o"⟩ with
          flipAttempts := initBuildState.flipAttempts ++ ["id1"] } ∧
    idInNodes (nodeUpserts initBuildState
        ⟨"id1", "p-env-r1", false, some "o"⟩).products "id1" ∧
    idInNodes (nodeUpserts initBuildState
        ⟨"id1", "p-env-r1", false, some "o"⟩).roles "id1" ∧
    (nodeUpserts initBuildState ⟨"id1", "p-env-r1", false, some "o"⟩).leafs
      = initBuildState.leafs ∧
    initBuildState.flipAttempts = [] :=
  c6_flip_failure_aborts_pass (fun i => i == "id1") (fun _ => false) [] [] []
    ⟨"id1", "p-env-r1", false, some "o"⟩ initBuildState initBuildState
    rfl rfl (by decide) rfl (by simp)

end MapfreAM
